import Mathlib

/-!
Formal model of the auracog_rules reasoning layer shipped with this fork of
clipspy: the fact marshaller, the reasoning engine operations, the
persistence store and the rules-engine pool.  The implementation modules
(auracog_rules.rules_engines and auracog_rules.rules_engines_persistence)
are not part of the repository snapshot, which only carries their
documentation, a notebook transcript and build scripts; every definition
below is therefore modelled from the specification and the user guide.
-/

/-- Scalar host values: strings, integers and booleans. -/
inductive Scalar
  | str (s : String)
  | int (n : Int)
  | bool (b : Bool)
deriving DecidableEq

/-- Modelled from the spec: a field value inside a host mapping is a scalar,
a flat sequence of scalars, or - illegally - a nested mapping, the shape the
marshaller must reject. -/
inductive FieldValue
  | scalar (s : Scalar)
  | seq (ss : List Scalar)
  | nested (fields : List (String × FieldValue))

/-- Modelled from the spec: a host value handed to set_facts is a scalar, a
flat ordered sequence of scalars, or a mapping of field name to field
value. -/
inductive HostValue
  | scalar (s : Scalar)
  | seq (ss : List Scalar)
  | map (fields : List (String × FieldValue))

/-- A slot value of an unordered fact: a scalar or a sequence of scalars. -/
inductive SlotValue
  | scalar (s : Scalar)
  | seq (ss : List Scalar)
deriving DecidableEq

/-- Modelled from the spec: a fact is either an ordered fact, a name with a
sequence of scalar values, or an unordered template fact, a name with a
mapping of slot name to slot value. -/
inductive ClipsFact
  | ordered (name : String) (values : List Scalar)
  | unordered (name : String) (slots : List (String × SlotValue))
deriving DecidableEq

/-- Conversion failures surfaced by set_facts, identifying the offending
fact name. -/
inductive ConvError
  | conversionError (factName : String)
  | templateNotFound (factName : String)
deriving DecidableEq

/-- Returns true when no field value of the mapping is a nested mapping. -/
def flatFields : List (String × FieldValue) → Bool
  | [] => true
  | (_, FieldValue.nested _) :: _ => false
  | _ :: rest => flatFields rest

/-- Modelled from the spec: converts the fields of a host mapping to the
slots of an unordered fact, failing on a nested mapping value. -/
def encodeSlots : List (String × FieldValue) → Option (List (String × SlotValue))
  | [] => some []
  | (k, FieldValue.scalar s) :: rest =>
      (encodeSlots rest).map (fun slots => (k, SlotValue.scalar s) :: slots)
  | (k, FieldValue.seq ss) :: rest =>
      (encodeSlots rest).map (fun slots => (k, SlotValue.seq ss) :: slots)
  | (_, FieldValue.nested _) :: _ => none

/-- Modelled from the spec: encode a host value as a fact.  A scalar or a
flat sequence becomes an ordered fact; a flat mapping becomes an unordered
fact; a mapping holding a nested mapping fails with ConversionError. -/
def encode (name : String) : HostValue → Except ConvError ClipsFact
  | HostValue.scalar s => Except.ok (ClipsFact.ordered name [s])
  | HostValue.seq ss => Except.ok (ClipsFact.ordered name ss)
  | HostValue.map fields =>
      match encodeSlots fields with
      | some slots => Except.ok (ClipsFact.unordered name slots)
      | none => Except.error (ConvError.conversionError name)

/-- Decodes one slot value back to a field value. -/
def decodeSlot : SlotValue → FieldValue
  | SlotValue.scalar s => FieldValue.scalar s
  | SlotValue.seq ss => FieldValue.seq ss

/-- Modelled from the spec: decode a fact back to a host value.  Ordered
facts decode to a sequence of scalars; unordered facts decode to a mapping
of slot name to field value. -/
def decode : ClipsFact → HostValue
  | ClipsFact.ordered _ vs => HostValue.seq vs
  | ClipsFact.unordered _ slots =>
      HostValue.map (slots.map (fun p => (p.1, decodeSlot p.2)))

/-- The decode-after-encode round trip on a host value, absent when the
encoding itself fails. -/
def roundTrip (name : String) (v : HostValue) : Option HostValue :=
  match encode name v with
  | Except.ok f => some (decode f)
  | Except.error _ => none

/-- Modelled from the spec: a rule set is the ordered list of rule files
loaded into each engine, together with the bootstrap facts its loading
implies and the deftemplate names it defines. -/
structure RuleSet where
  files : List String
  bootstrapFacts : List ClipsFact
  templates : List String

/-- Modelled from the spec: the baseline working memory established by a
reset consists of the interpreter bootstrap fact (initial-fact) followed by
the bootstrap facts implied by the loaded rule set. -/
def baselineWM (rs : RuleSet) : List ClipsFact :=
  ClipsFact.ordered "initial-fact" [] :: rs.bootstrapFacts

/-- Returns true when the rule set defines a deftemplate with this name. -/
def hasTemplate (rs : RuleSet) (n : String) : Bool :=
  rs.templates.contains n

/-- Returns the name of a fact. -/
def factName : ClipsFact → String
  | ClipsFact.ordered n _ => n
  | ClipsFact.unordered n _ => n

/-- Modelled from the spec: asserting a fact appends it to working memory;
an unordered fact whose deftemplate is not loaded fails with
TemplateNotFoundError. -/
def assertFact (rs : RuleSet) (wm : List ClipsFact) : ClipsFact → Except ConvError (List ClipsFact)
  | ClipsFact.ordered n vs => Except.ok (wm ++ [ClipsFact.ordered n vs])
  | ClipsFact.unordered n slots =>
      if hasTemplate rs n then Except.ok (wm ++ [ClipsFact.unordered n slots])
      else Except.error (ConvError.templateNotFound n)

/-- Modelled from the spec: set_facts encodes and asserts each entry in
input order; on the first failing entry it stops, leaving the entries
already asserted in place, and reports the error of the offending entry. -/
def set_facts (rs : RuleSet) (wm : List ClipsFact) :
    List (String × HostValue) → List ClipsFact × Option ConvError
  | [] => (wm, none)
  | (n, v) :: rest =>
      match encode n v with
      | Except.error e => (wm, some e)
      | Except.ok f =>
          match assertFact rs wm f with
          | Except.error e => (wm, some e)
          | Except.ok wm2 => set_facts rs wm2 rest

/-- Modelled from the spec: collect_fact_values returns the decoded values
of all currently asserted facts with the given name, in assertion order. -/
def collect_fact_values (wm : List ClipsFact) (name : String) : List HostValue :=
  (wm.filter (fun f => decide (factName f = name))).map decode

/-- The metrics returned by reason. -/
structure ReasoningMetrics where
  factsAsserted : Nat
  rulesDefined : Nat
  rulesFired : Nat

/-- Modelled from the spec: the interpreter inference loop.  The step
function fires one pending activation, returning none once the agenda is
empty; the loop stops after at most maxFires firings and reports the
number of activations actually fired. -/
def runLoop (step : List ClipsFact → Option (List ClipsFact)) :
    Nat → List ClipsFact → List ClipsFact × Nat
  | 0, wm => (wm, 0)
  | Nat.succ k, wm =>
      match step wm with
      | none => (wm, 0)
      | some wm2 =>
          let r := runLoop step k wm2
          (r.1, r.2 + 1)

/-- Modelled from the user guide: the default bound on rule firings used by
reason when no bound is passed. -/
def DEFAULT_MAX_FIRES : Nat := 10000

/-- Modelled from the spec: reason runs the bounded inference loop and
returns the resulting working memory together with the reasoning metrics;
reaching the bound is a silent truncation, never an exception. -/
def reason (rulesDefined : Nat) (step : List ClipsFact → Option (List ClipsFact))
    (wm : List ClipsFact) (maxFires : Nat) : List ClipsFact × ReasoningMetrics :=
  let r := runLoop step maxFires wm
  (r.1, ⟨r.1.length, rulesDefined, r.2⟩)

/-- Lifecycle status of an engine instance in the pool. -/
inductive Status
  | building
  | idle
  | busy
deriving DecidableEq

/-- Modelled from the spec: one pooled rules engine: its lifecycle status,
the identifier of the persisted state it currently represents, the thread
currently holding it, and its working memory. -/
structure EngineInstance where
  status : Status
  boundId : Option String
  owner : Option Nat
  wm : List ClipsFact
deriving DecidableEq

/-- Modelled from the spec: the construction parameters of a rules engine
pool. -/
structure PoolConfig where
  name : String
  rs : RuleSet
  functionsPackageName : String
  poolSize : Nat
  initialPoolSize : Nat

/-- The persistence store, modelled as an association list from identifier
to serialized working-memory snapshot; save prepends, lookup returns the
most recent entry. -/
abbrev Store : Type := List (String × List ClipsFact)

/-- Looks an identifier up in the persistence store; a missing identifier
yields none, a valid no-prior-state signal rather than an error. -/
def storeLookup (x : String) : Store → Option (List ClipsFact)
  | [] => none
  | (k, b) :: rest => if k = x then some b else storeLookup x rest

/-- Saves a snapshot for an identifier, shadowing any previous entry. -/
def storeSave (x : String) (blob : List ClipsFact) (st : Store) : Store :=
  (x, blob) :: st

/-- Modelled from the spec: the bookkeeping state of one rules engine pool:
the instance list, the FIFO queue of blocked acquirers with the identifier
each requested, and the persistence store. -/
structure PoolState where
  instances : List EngineInstance
  waitQueue : List (Nat × Option String)
  store : Store

/-- Index of the first list element satisfying the predicate. -/
def findIdxP (p : α → Bool) : List α → Option Nat
  | [] => none
  | a :: as => if p a then some 0 else (findIdxP p as).map (· + 1)

/-- Applies a function to the element at one position, leaving every other
position unchanged. -/
def modifyAt (l : List α) (i : Nat) (f : α → α) : List α :=
  match l, i with
  | [], _ => []
  | a :: as, 0 => f a :: as
  | a :: as, Nat.succ j => a :: modifyAt as j f

/-- Returns true when the instance is Busy and held by this thread. -/
def busyOwnedBy (tid : Nat) (e : EngineInstance) : Bool :=
  match e.status, e.owner with
  | Status.busy, some t => decide (t = tid)
  | _, _ => false

/-- Returns true when the instance is Idle and bound to this identifier. -/
def idleBoundTo (x : String) (e : EngineInstance) : Bool :=
  match e.status, e.boundId with
  | Status.idle, some y => decide (y = x)
  | _, _ => false

/-- Returns true when the instance is Building and held by this thread. -/
def buildingOwnedBy (tid : Nat) (e : EngineInstance) : Bool :=
  match e.status, e.owner with
  | Status.building, some t => decide (t = tid)
  | _, _ => false

/-- Returns true when the instance is Idle. -/
def isIdleInst (e : EngineInstance) : Bool :=
  match e.status with
  | Status.idle => true
  | _ => false

/-- Modelled from the spec: the working memory an instance receives for a
requested identifier: the stored snapshot when one exists, the baseline
otherwise (also when no identifier is requested). -/
def loadOrBaseline (cfg : PoolConfig) (st : Store) : Option String → List ClipsFact
  | none => baselineWM cfg.rs
  | some x =>
      match storeLookup x st with
      | some blob => blob
      | none => baselineWM cfg.rs

/-- Modelled from the spec: hands the instance at one position to an
acquirer.  When its bound identifier already matches the requested one the
instance is taken as is; otherwise it is reset, the snapshot for the
requested identifier is loaded (baseline when absent) and the bound
identifier is updated. -/
def grantAt (cfg : PoolConfig) (st : Store) (insts : List EngineInstance)
    (i : Nat) (tid : Nat) (id : Option String) : List EngineInstance :=
  modifyAt insts i (fun e =>
    if e.boundId = id then
      { e with status := Status.busy, owner := some tid }
    else
      { e with status := Status.busy, owner := some tid, boundId := id,
               wm := loadOrBaseline cfg st id })

/-- Modelled from the spec: the slow acquisition path, reached when no Idle
instance is bound to the requested identifier.  Below the pool size a new
Building instance is added; otherwise the first Idle instance is granted;
with every instance Busy the acquirer joins the tail of the FIFO wait
queue. -/
def acquireSlow (cfg : PoolConfig) (s : PoolState) (tid : Nat)
    (id : Option String) : PoolState :=
  if s.instances.length < cfg.poolSize then
    { s with instances :=
        s.instances ++ [⟨Status.building, id, some tid, []⟩] }
  else
    match findIdxP isIdleInst s.instances with
    | some i => { s with instances := grantAt cfg s.store s.instances i tid id }
    | none => { s with waitQueue := s.waitQueue ++ [(tid, id)] }

/-- Modelled from the spec: acquire_rules_engine.  With an identifier, an
Idle instance already bound to it is taken directly (fast path, no
persistence reads); otherwise the slow path applies. -/
def acquire_rules_engine (cfg : PoolConfig) (s : PoolState) (tid : Nat)
    (id : Option String) : PoolState :=
  match id with
  | some x =>
      match findIdxP (idleBoundTo x) s.instances with
      | some i => { s with instances := grantAt cfg s.store s.instances i tid (some x) }
      | none => acquireSlow cfg s tid (some x)
  | none => acquireSlow cfg s tid none

/-- Modelled from the spec: completes the construction of the Building
instance held by this thread: the rule set is loaded, establishing the
baseline, and the snapshot for the requested identifier is restored when
one exists. -/
def finishBuild (cfg : PoolConfig) (s : PoolState) (tid : Nat) : PoolState :=
  match findIdxP (buildingOwnedBy tid) s.instances with
  | none => s
  | some i =>
      { s with instances := modifyAt s.instances i (fun e =>
          { e with status := Status.busy,
                   wm := loadOrBaseline cfg s.store e.boundId }) }

/-- Modelled from the spec: the shape a released instance takes.  With an
identifier it turns Idle bound to that identifier with its facts left
intact; without one it is reset to baseline with its binding cleared. -/
def releasedInstance (cfg : PoolConfig) (e : EngineInstance) :
    Option String → EngineInstance
  | some x => { e with status := Status.idle, owner := none, boundId := some x }
  | none => { e with status := Status.idle, owner := none, boundId := none,
                     wm := baselineWM cfg.rs }

/-- Modelled from the spec: the store after a release: a stateful release
serializes the working memory and saves it under the identifier, a
stateless release leaves the store untouched. -/
def releaseStore (e : EngineInstance) (st : Store) : Option String → Store
  | some x => storeSave x e.wm st
  | none => st

/-- Modelled from the spec: after an instance turns Idle, the head of the
FIFO wait queue, when present, is immediately granted that instance. -/
def wakeHead (cfg : PoolConfig) (insts : List EngineInstance) (i : Nat)
    (st : Store) : List (Nat × Option String) → PoolState
  | [] => { instances := insts, waitQueue := [], store := st }
  | (t, rid) :: rest =>
      { instances := grantAt cfg st insts i t rid, waitQueue := rest, store := st }

/-- Modelled from the spec: release_rules_engine.  With an identifier the
current working memory is serialized and saved under it, the identifier is
bound and the facts are left intact; without one the engine is reset to
baseline and its binding cleared.  The instance turns Idle and, when
acquirers are blocked, is immediately granted to the head of the FIFO wait
queue. -/
def release_rules_engine (cfg : PoolConfig) (s : PoolState) (tid : Nat)
    (id : Option String) : PoolState :=
  match findIdxP (busyOwnedBy tid) s.instances with
  | none => s
  | some i =>
      match s.instances[i]? with
      | none => s
      | some e =>
          wakeHead cfg (modifyAt s.instances i (fun _ => releasedInstance cfg e id))
            i (releaseStore e s.store id) s.waitQueue

/-- Modelled from the spec: set_facts invoked through the pool mutates the
working memory of the engine held by this thread; a conversion failure is
raised to the caller while the entries asserted before it remain. -/
def poolSetFacts (cfg : PoolConfig) (s : PoolState) (tid : Nat)
    (specs : List (String × HostValue)) : PoolState :=
  match findIdxP (busyOwnedBy tid) s.instances with
  | none => s
  | some i =>
      { s with instances := modifyAt s.instances i (fun e =>
          { e with wm := (set_facts cfg.rs e.wm specs).1 }) }

/-- One observable action against the pool. -/
inductive PoolEvent
  | acquire (tid : Nat) (id : Option String)
  | build (tid : Nat)
  | release (tid : Nat) (id : Option String)
  | setFactsEv (tid : Nat) (specs : List (String × HostValue))

/-- Applies one pool event to the pool state. -/
def applyEvent (cfg : PoolConfig) (s : PoolState) : PoolEvent → PoolState
  | PoolEvent.acquire tid id => acquire_rules_engine cfg s tid id
  | PoolEvent.build tid => finishBuild cfg s tid
  | PoolEvent.release tid id => release_rules_engine cfg s tid id
  | PoolEvent.setFactsEv tid specs => poolSetFacts cfg s tid specs

/-- Modelled from the spec: the pool state right after construction, with
initialPoolSize instances eagerly built to baseline and Idle, no blocked
acquirers, and a caller-provided persistence store. -/
def initState (cfg : PoolConfig) (st0 : Store) : PoolState :=
  { instances := List.replicate cfg.initialPoolSize
      ⟨Status.idle, none, none, baselineWM cfg.rs⟩,
    waitQueue := [], store := st0 }

/-- Runs a sequence of pool events from a starting state. -/
def runEvents (cfg : PoolConfig) (s : PoolState) (es : List PoolEvent) : PoolState :=
  es.foldl (applyEvent cfg) s

/-- A sample rule set for concrete evaluations: the rule files of the user
guide example, the bootstrap slot fact and three deftemplates. -/
def rsW : RuleSet :=
  ⟨["../clips_modules/slots_control.clp", "example_suggestions.clp"],
   [ClipsFact.ordered "slot" [Scalar.str "__initial_slot__"]],
   ["user_info", "suggested_intent", "current_session"]⟩

/-- A sample pool configuration mirroring the user guide example. -/
def cfgW : PoolConfig := ⟨"test_pool", rsW, "custom_functions", 2, 2⟩

/-- A sample pool configuration with a single instance. -/
def cfgW1 : PoolConfig := ⟨"test_pool_1", rsW, "custom_functions", 1, 1⟩

/-- A sample pool state with one instance, Busy and held by thread 1. -/
def sBusyW : PoolState :=
  ⟨[⟨Status.busy, none, some 1, baselineWM rsW⟩], [], []⟩

/-- A sample pool state with one instance, Idle and unbound, and an empty
store. -/
def sIdleW : PoolState :=
  ⟨[⟨Status.idle, none, none, baselineWM rsW⟩], [], []⟩

/-- A sample pool state at capacity two with both instances Busy and one
blocked acquirer. -/
def sFullW : PoolState :=
  ⟨[⟨Status.busy, none, some 1, baselineWM rsW⟩,
    ⟨Status.busy, some "persistent_state_2", some 2, baselineWM rsW⟩],
   [(3, some "persistent_state_1")], []⟩

/-- A sample event sequence exercising grants, builds, blocking and both
release modes. -/
def esW : List PoolEvent :=
  [PoolEvent.acquire 1 none,
   PoolEvent.acquire 2 (some "persistent_state_1"),
   PoolEvent.build 2,
   PoolEvent.setFactsEv 2 [("content_name", HostValue.seq [Scalar.str "star trek"])],
   PoolEvent.acquire 3 none,
   PoolEvent.release 1 none,
   PoolEvent.release 2 (some "persistent_state_1")]

theorem length_modifyAt (l : List α) (i : Nat) (f : α → α) :
    (modifyAt l i f).length = l.length := by
  induction l generalizing i with
  | nil => simp [modifyAt]
  | cons a as ih =>
    cases i with
    | zero => simp [modifyAt]
    | succ j => simp [modifyAt, ih]

theorem getElem?_modifyAt_self (l : List α) (i : Nat) (f : α → α) (a : α)
    (h : l[i]? = some a) : (modifyAt l i f)[i]? = some (f a) := by
  induction l generalizing i with
  | nil => simp at h
  | cons b bs ih =>
    cases i with
    | zero =>
      simp only [List.getElem?_cons_zero, Option.some.injEq] at h
      subst h
      simp [modifyAt]
    | succ j =>
      simp only [List.getElem?_cons_succ] at h
      simpa [modifyAt] using ih j h

theorem getElem?_modifyAt_ne (l : List α) (i j : Nat) (f : α → α)
    (h : j ≠ i) : (modifyAt l i f)[j]? = l[j]? := by
  induction l generalizing i j with
  | nil => simp [modifyAt]
  | cons b bs ih =>
    cases i with
    | zero =>
      cases j with
      | zero => exact absurd rfl h
      | succ j2 => simp [modifyAt]
    | succ i2 =>
      cases j with
      | zero => simp [modifyAt]
      | succ j2 =>
        simp only [modifyAt, List.getElem?_cons_succ]
        exact ih i2 j2 (fun hc => h (by rw [hc]))

theorem mem_of_getElemOpt (l : List α) (i : Nat) (a : α)
    (h : l[i]? = some a) : a ∈ l := by
  induction l generalizing i with
  | nil => simp at h
  | cons b bs ih =>
    cases i with
    | zero =>
      simp only [List.getElem?_cons_zero, Option.some.injEq] at h
      rw [← h]
      exact List.mem_cons_self b bs
    | succ j =>
      exact List.mem_cons_of_mem b (ih j (by simpa using h))

theorem findIdxP_none_iff (p : α → Bool) (l : List α) :
    findIdxP p l = none ↔ ∀ a ∈ l, p a = false := by
  induction l with
  | nil => simp [findIdxP]
  | cons a as ih =>
    by_cases h : p a
    · simp [findIdxP, h]
    · simp only [findIdxP, if_neg h, Option.map_eq_none', ih, List.mem_cons]
      constructor
      · intro hall b hb
        cases hb with
        | inl hb => rw [hb]; exact Bool.eq_false_iff.mpr h
        | inr hb => exact hall b hb
      · intro hall b hb
        exact hall b (Or.inr hb)

theorem findIdxP_some (p : α → Bool) (l : List α) (i : Nat) (a : α)
    (hi : l[i]? = some a) (hp : p a = true)
    (hlt : ∀ j, j < i → ∀ b, l[j]? = some b → p b = false) :
    findIdxP p l = some i := by
  induction l generalizing i with
  | nil => simp at hi
  | cons c cs ih =>
    cases i with
    | zero =>
      simp only [List.getElem?_cons_zero, Option.some.injEq] at hi
      subst hi
      simp [findIdxP, hp]
    | succ n =>
      have hc : p c = false := hlt 0 (Nat.succ_pos n) c (by simp)
      have hrec : findIdxP p cs = some n := by
        apply ih n (by simpa using hi)
        intro j hj b hb
        exact hlt (j + 1) (Nat.succ_lt_succ hj) b (by simpa using hb)
      simp [findIdxP, hc, hrec]

theorem findIdxP_some_elem (p : α → Bool) (l : List α) (i : Nat)
    (h : findIdxP p l = some i) : ∃ a, l[i]? = some a ∧ p a = true := by
  induction l generalizing i with
  | nil => simp [findIdxP] at h
  | cons c cs ih =>
    by_cases hc : p c
    · simp only [findIdxP, if_pos hc, Option.some.injEq] at h
      subst h
      exact ⟨c, by simp, hc⟩
    · simp only [findIdxP, if_neg hc, Option.map_eq_some'] at h
      obtain ⟨n, hn, rfl⟩ := h
      obtain ⟨a, ha, hpa⟩ := ih n hn
      exact ⟨a, by simpa using ha, hpa⟩

theorem findIdxP_some_lt (p : α → Bool) (l : List α) (i : Nat)
    (h : findIdxP p l = some i) :
    ∀ j, j < i → ∀ b, l[j]? = some b → p b = false := by
  induction l generalizing i with
  | nil => simp [findIdxP] at h
  | cons c cs ih =>
    by_cases hc : p c
    · simp only [findIdxP, if_pos hc, Option.some.injEq] at h
      subst h
      intro j hj
      exact absurd hj (Nat.not_lt_zero j)
    · simp only [findIdxP, if_neg hc, Option.map_eq_some'] at h
      obtain ⟨n, hn, rfl⟩ := h
      intro j hj b hb
      cases j with
      | zero =>
        simp only [List.getElem?_cons_zero, Option.some.injEq] at hb
        subst hb
        exact Bool.eq_false_iff.mpr hc
      | succ j2 =>
        exact ih n hn j2 (Nat.lt_of_succ_lt_succ hj) b (by simpa using hb)

theorem storeLookup_save (x : String) (b : List ClipsFact) (st : Store) :
    storeLookup x (storeSave x b st) = some b := by
  simp [storeSave, storeLookup]

theorem set_facts_append (rs : RuleSet) (wm wm2 : List ClipsFact)
    (pre rest : List (String × HostValue))
    (h : set_facts rs wm pre = (wm2, none)) :
    set_facts rs wm (pre ++ rest) = set_facts rs wm2 rest := by
  induction pre generalizing wm with
  | nil =>
    simp only [set_facts, Prod.mk.injEq] at h
    rw [List.nil_append, h.1]
  | cons p ps ih =>
    obtain ⟨n, v⟩ := p
    cases he : encode n v with
    | error e =>
      rw [show set_facts rs wm ((n, v) :: ps) = (wm, some e) from by
        simp [set_facts, he]] at h
      simp at h
    | ok f =>
      cases ha : assertFact rs wm f with
      | error e =>
        rw [show set_facts rs wm ((n, v) :: ps) = (wm, some e) from by
          simp [set_facts, he, ha]] at h
        simp at h
      | ok wm3 =>
        rw [show set_facts rs wm ((n, v) :: ps) = set_facts rs wm3 ps from by
          simp [set_facts, he, ha]] at h
        rw [List.cons_append,
          show set_facts rs wm ((n, v) :: (ps ++ rest)) = set_facts rs wm3 (ps ++ rest) from by
            simp [set_facts, he, ha]]
        exact ih wm3 h

theorem encodeSlots_of_nested (fs : List (String × FieldValue)) (k : String)
    (m : List (String × FieldValue)) (h : (k, FieldValue.nested m) ∈ fs) :
    encodeSlots fs = none := by
  induction fs with
  | nil => cases h
  | cons p ps ih =>
    cases h with
    | head => simp [encodeSlots]
    | tail _ h2 =>
      obtain ⟨k2, v⟩ := p
      cases v with
      | scalar s => simp [encodeSlots, ih h2]
      | seq ss => simp [encodeSlots, ih h2]
      | nested f2 => simp [encodeSlots]

theorem encodeSlots_flat (fs : List (String × FieldValue))
    (h : flatFields fs = true) :
    ∃ slots, encodeSlots fs = some slots ∧
      slots.map (fun p => (p.1, decodeSlot p.2)) = fs := by
  induction fs with
  | nil => exact ⟨[], rfl, rfl⟩
  | cons p ps ih =>
    obtain ⟨k, v⟩ := p
    cases v with
    | scalar s =>
      have h2 : flatFields ps = true := by simpa [flatFields] using h
      obtain ⟨slots, h3, h4⟩ := ih h2
      exact ⟨(k, SlotValue.scalar s) :: slots, by simp [encodeSlots, h3],
        by simp only [List.map_cons, decodeSlot] at h4 ⊢; rw [h4]⟩
    | seq ss =>
      have h2 : flatFields ps = true := by simpa [flatFields] using h
      obtain ⟨slots, h3, h4⟩ := ih h2
      exact ⟨(k, SlotValue.seq ss) :: slots, by simp [encodeSlots, h3],
        by simp only [List.map_cons, decodeSlot] at h4 ⊢; rw [h4]⟩
    | nested f2 => simp [flatFields] at h

theorem runLoop_fires_le (step : List ClipsFact → Option (List ClipsFact))
    (k : Nat) (wm : List ClipsFact) : (runLoop step k wm).2 ≤ k := by
  induction k generalizing wm with
  | zero => simp [runLoop]
  | succ n ih =>
    simp only [runLoop]
    cases step wm with
    | none => simp
    | some wm2 => simpa using Nat.succ_le_succ (ih wm2)

theorem runLoop_fires_total (step : List ClipsFact → Option (List ClipsFact))
    (h : ∀ w, (step w).isSome = true) (k : Nat) (wm : List ClipsFact) :
    (runLoop step k wm).2 = k := by
  induction k generalizing wm with
  | zero => simp [runLoop]
  | succ n ih =>
    simp only [runLoop]
    cases hs : step wm with
    | none => exact absurd (h wm) (by simp [hs])
    | some wm2 => simp [ih wm2]

/-- C1 counterexample: the round-trip law fails as stated on a bare scalar.
Encoding the scalar value of the user guide example produces the ordered
fact (content_name "star trek"), which decodes to the singleton sequence,
not back to the scalar. -/
theorem c1_counterexample :
    roundTrip "content_name" (HostValue.scalar (Scalar.str "star trek")) ≠
      some (HostValue.scalar (Scalar.str "star trek")) := by
  intro h
  rw [show roundTrip "content_name" (HostValue.scalar (Scalar.str "star trek")) =
      some (HostValue.seq [Scalar.str "star trek"]) from rfl] at h
  cases h

/-- C1 (amended): decoding the fact produced by encoding returns the value
unchanged for flat sequences of scalars and for flat mappings; a bare
scalar round-trips to its singleton sequence instead of itself; encode is
a pure function of the name and value, hence deterministic. -/
theorem c1_round_trip_amended (name : String) :
    (∀ ss, roundTrip name (HostValue.seq ss) = some (HostValue.seq ss)) ∧
    (∀ fs, flatFields fs = true →
        roundTrip name (HostValue.map fs) = some (HostValue.map fs)) ∧
    (∀ s, roundTrip name (HostValue.scalar s) = some (HostValue.seq [s])) := by
  refine ⟨fun ss => rfl, ?_, fun s => rfl⟩
  intro fs hf
  obtain ⟨slots, h1, h2⟩ := encodeSlots_flat fs hf
  simp [roundTrip, encode, h1, decode, h2]

/-- C1 witness: the flat mapping of the user guide round-trips unchanged. -/
theorem c1_round_trip_amended_witness :
    roundTrip "user"
      (HostValue.map [("id", FieldValue.scalar (Scalar.str "1234asdf56789")),
        ("requests", FieldValue.seq [Scalar.str "1234567", Scalar.str "23456789"])]) =
      some (HostValue.map [("id", FieldValue.scalar (Scalar.str "1234asdf56789")),
        ("requests", FieldValue.seq [Scalar.str "1234567", Scalar.str "23456789"])]) :=
  (c1_round_trip_amended "user").2.1
    [("id", FieldValue.scalar (Scalar.str "1234asdf56789")),
     ("requests", FieldValue.seq [Scalar.str "1234567", Scalar.str "23456789"])] rfl

/-- C9: a scalar and its singleton sequence encode to the same ordered
fact, decoding an ordered fact always yields a sequence, the round trip of
a bare scalar yields the one-element sequence, and that sequence differs
from the scalar, so encoding is not injective on scalars versus singleton
sequences. -/
theorem c9_scalar_vs_singleton (n : String) (s : Scalar) :
    encode n (HostValue.scalar s) = encode n (HostValue.seq [s]) ∧
    (∀ vs, decode (ClipsFact.ordered n vs) = HostValue.seq vs) ∧
    roundTrip n (HostValue.scalar s) = some (HostValue.seq [s]) ∧
    HostValue.seq [s] ≠ HostValue.scalar s := by
  refine ⟨rfl, fun vs => rfl, rfl, ?_⟩
  intro h
  cases h

/-- C6: when an entry of a set_facts call carries a mapping with a nested
mapping as a field value, the call stops at that entry with a
ConversionError naming it, the entries asserted before it remain in
working memory, and the entries after it are never processed. -/
theorem c6_nested_value_fails (rs : RuleSet) (wm wm2 : List ClipsFact)
    (pre post : List (String × HostValue)) (n k : String)
    (m fs : List (String × FieldValue))
    (hnest : (k, FieldValue.nested m) ∈ fs)
    (hpre : set_facts rs wm pre = (wm2, none)) :
    set_facts rs wm (pre ++ (n, HostValue.map fs) :: post) =
      (wm2, some (ConvError.conversionError n)) := by
  rw [set_facts_append rs wm wm2 pre _ hpre]
  simp [set_facts, encode, encodeSlots_of_nested fs k m hnest]

/-- C6 witness: a concrete call with one valid entry, then the invalid
nested user mapping of the user guide, then one further entry. -/
theorem c6_nested_value_fails_witness :
    set_facts rsW (baselineWM rsW)
      ([("content_name", HostValue.seq [Scalar.str "star trek"])] ++
        ("user_info", HostValue.map
          [("id", FieldValue.scalar (Scalar.str "1234asdf56789")),
           ("details", FieldValue.nested
             [("name", FieldValue.scalar (Scalar.str "Spock"))])]) ::
        [("pizza_ingredients", HostValue.seq [Scalar.str "cheese"])]) =
      (baselineWM rsW ++ [ClipsFact.ordered "content_name" [Scalar.str "star trek"]],
        some (ConvError.conversionError "user_info")) :=
  c6_nested_value_fails rsW (baselineWM rsW)
    (baselineWM rsW ++ [ClipsFact.ordered "content_name" [Scalar.str "star trek"]])
    [("content_name", HostValue.seq [Scalar.str "star trek"])]
    [("pizza_ingredients", HostValue.seq [Scalar.str "cheese"])]
    "user_info" "details"
    [("name", FieldValue.scalar (Scalar.str "Spock"))]
    [("id", FieldValue.scalar (Scalar.str "1234asdf56789")),
     ("details", FieldValue.nested [("name", FieldValue.scalar (Scalar.str "Spock"))])]
    (List.Mem.tail _ (List.Mem.head _)) rfl

/-- C2: reason fires at most maxFires activations whatever the rule base
does, the returned metrics report the number of activations actually
fired, an agenda that never empties is truncated at exactly the bound
without any exception, and the default bound is 10000. -/
theorem c2_reason_bounded (rulesDefined : Nat)
    (step : List ClipsFact → Option (List ClipsFact))
    (wm : List ClipsFact) (k : Nat) :
    (reason rulesDefined step wm k).2.rulesFired ≤ k ∧
    (reason rulesDefined step wm k).2.rulesFired = (runLoop step k wm).2 ∧
    ((∀ w, (step w).isSome = true) →
      (reason rulesDefined step wm k).2.rulesFired = k) ∧
    DEFAULT_MAX_FIRES = 10000 := by
  exact ⟨runLoop_fires_le step k wm, rfl,
    fun h => runLoop_fires_total step h k wm, rfl⟩

/-- C2 witness: a step function that always fires is truncated at exactly
the bound 3. -/
theorem c2_reason_bounded_witness :
    (reason 7 (fun w => some (w ++ [ClipsFact.ordered "now" []]))
      (baselineWM rsW) 3).2.rulesFired = 3 :=
  (c2_reason_bounded 7 (fun w => some (w ++ [ClipsFact.ordered "now" []]))
    (baselineWM rsW) 3).2.2.1 (fun _ => rfl)

/-- C10: the baseline working memory always contains the interpreter
bootstrap fact (initial-fact) and is never empty; every eagerly built
instance of a fresh pool starts at the baseline, and loading without an
identifier also yields the baseline. -/
theorem c10_baseline_never_empty (cfg : PoolConfig) (st0 : Store) (rs : RuleSet) :
    ClipsFact.ordered "initial-fact" [] ∈ baselineWM rs ∧
    baselineWM rs ≠ [] ∧
    (∀ inst ∈ (initState cfg st0).instances, inst.wm = baselineWM cfg.rs) ∧
    loadOrBaseline cfg st0 none = baselineWM cfg.rs := by
  refine ⟨List.mem_cons_self _ _, by simp [baselineWM], ?_, rfl⟩
  intro inst h
  have h2 : inst = (⟨Status.idle, none, none, baselineWM cfg.rs⟩ : EngineInstance) :=
    List.eq_of_mem_replicate (by simpa [initState] using h)
  rw [h2]

theorem length_grantAt (cfg : PoolConfig) (st : Store) (insts : List EngineInstance)
    (i tid : Nat) (id : Option String) :
    (grantAt cfg st insts i tid id).length = insts.length := by
  simp [grantAt, length_modifyAt]

theorem length_acquireSlow (cfg : PoolConfig) (s : PoolState) (tid : Nat)
    (id : Option String) (h : s.instances.length ≤ cfg.poolSize) :
    (acquireSlow cfg s tid id).instances.length ≤ cfg.poolSize := by
  unfold acquireSlow
  by_cases hlt : s.instances.length < cfg.poolSize
  · simp only [if_pos hlt, List.length_append, List.length_cons, List.length_nil]
    omega
  · simp only [if_neg hlt]
    cases hf : findIdxP isIdleInst s.instances with
    | some i => simpa [length_grantAt] using h
    | none => exact h

theorem length_acquire (cfg : PoolConfig) (s : PoolState) (tid : Nat)
    (id : Option String) (h : s.instances.length ≤ cfg.poolSize) :
    (acquire_rules_engine cfg s tid id).instances.length ≤ cfg.poolSize := by
  unfold acquire_rules_engine
  split
  · split
    · simpa [length_grantAt] using h
    · exact length_acquireSlow cfg s tid _ h
  · exact length_acquireSlow cfg s tid none h

theorem length_wakeHead (cfg : PoolConfig) (insts : List EngineInstance)
    (i : Nat) (st : Store) (q : List (Nat × Option String)) :
    (wakeHead cfg insts i st q).instances.length = insts.length := by
  cases q with
  | nil => rfl
  | cons w rest =>
    obtain ⟨t, rid⟩ := w
    simp [wakeHead, length_grantAt]

theorem length_release (cfg : PoolConfig) (s : PoolState) (tid : Nat)
    (id : Option String) (h : s.instances.length ≤ cfg.poolSize) :
    (release_rules_engine cfg s tid id).instances.length ≤ cfg.poolSize := by
  unfold release_rules_engine
  split
  · exact h
  · split
    · exact h
    · simpa [length_wakeHead, length_modifyAt] using h

theorem length_finishBuild (cfg : PoolConfig) (s : PoolState) (tid : Nat)
    (h : s.instances.length ≤ cfg.poolSize) :
    (finishBuild cfg s tid).instances.length ≤ cfg.poolSize := by
  unfold finishBuild
  cases hf : findIdxP (buildingOwnedBy tid) s.instances with
  | none => exact h
  | some i => simpa [length_modifyAt] using h

theorem length_poolSetFacts (cfg : PoolConfig) (s : PoolState) (tid : Nat)
    (specs : List (String × HostValue)) (h : s.instances.length ≤ cfg.poolSize) :
    (poolSetFacts cfg s tid specs).instances.length ≤ cfg.poolSize := by
  unfold poolSetFacts
  cases hf : findIdxP (busyOwnedBy tid) s.instances with
  | none => exact h
  | some i => simpa [length_modifyAt] using h

theorem instances_length_applyEvent (cfg : PoolConfig) (s : PoolState)
    (ev : PoolEvent) (h : s.instances.length ≤ cfg.poolSize) :
    (applyEvent cfg s ev).instances.length ≤ cfg.poolSize := by
  cases ev with
  | acquire tid id => exact length_acquire cfg s tid id h
  | build tid => exact length_finishBuild cfg s tid h
  | release tid id => exact length_release cfg s tid id h
  | setFactsEv tid specs => exact length_poolSetFacts cfg s tid specs h

theorem runEvents_length_le (cfg : PoolConfig) (es : List PoolEvent)
    (s : PoolState) (h : s.instances.length ≤ cfg.poolSize) :
    (runEvents cfg s es).instances.length ≤ cfg.poolSize := by
  induction es generalizing s with
  | nil => exact h
  | cons ev rest ih => exact ih _ (instances_length_applyEvent cfg s ev h)

theorem acquire_all_busy (cfg : PoolConfig) (s : PoolState) (tid : Nat)
    (id : Option String)
    (hb : ∀ e ∈ s.instances, e.status = Status.busy)
    (hlen : cfg.poolSize ≤ s.instances.length) :
    acquire_rules_engine cfg s tid id =
      { s with waitQueue := s.waitQueue ++ [(tid, id)] } := by
  have hidle : findIdxP isIdleInst s.instances = none := by
    rw [findIdxP_none_iff]
    intro a ha
    simp [isIdleInst, hb a ha]
  have hnotlt : ¬ s.instances.length < cfg.poolSize := by omega
  cases id with
  | none => simp [acquire_rules_engine, acquireSlow, hnotlt, hidle]
  | some x =>
    have hfast : findIdxP (idleBoundTo x) s.instances = none := by
      rw [findIdxP_none_iff]
      intro a ha
      simp [idleBoundTo, hb a ha]
    simp [acquire_rules_engine, hfast, acquireSlow, hnotlt, hidle]

theorem grantAt_getElem (cfg : PoolConfig) (st : Store)
    (insts : List EngineInstance) (i tid : Nat) (id : Option String)
    (e : EngineInstance) (he : insts[i]? = some e) :
    (e.boundId = id →
      (grantAt cfg st insts i tid id)[i]? =
        some { e with status := Status.busy, owner := some tid }) ∧
    (e.boundId ≠ id →
      (grantAt cfg st insts i tid id)[i]? =
        some { e with status := Status.busy, owner := some tid,
                      boundId := id, wm := loadOrBaseline cfg st id }) := by
  have h2 := getElem?_modifyAt_self insts i (fun e2 =>
    if e2.boundId = id then { e2 with status := Status.busy, owner := some tid }
    else { e2 with status := Status.busy, owner := some tid, boundId := id,
                   wm := loadOrBaseline cfg st id }) e he
  constructor
  · intro hbid
    rw [grantAt, h2]
    simp [hbid]
  · intro hbid
    rw [grantAt, h2]
    simp [hbid]

theorem isIdleInst_status (e : EngineInstance) (h : isIdleInst e = true) :
    e.status = Status.idle := by
  cases hst : e.status with
  | idle => rfl
  | building => rw [isIdleInst, hst] at h; cases h
  | busy => rw [isIdleInst, hst] at h; cases h

theorem idleBoundTo_false_not_bound (x : String) (e : EngineInstance)
    (hst : e.status = Status.idle) (h : idleBoundTo x e = false) :
    e.boundId ≠ some x := by
  intro hb
  simp [idleBoundTo, hst, hb] at h

/-- C3: from any initial store and along any event sequence, the number of
engine instances in the pool - Building, Idle and Busy together - never
exceeds poolSize, provided initialPoolSize is within the cap; moreover an
acquirer arriving when every instance is Busy at capacity is enqueued and
no new instance is created. -/
theorem c3_pool_size_invariant (cfg : PoolConfig) (st0 : Store)
    (es : List PoolEvent) (hinit : cfg.initialPoolSize ≤ cfg.poolSize) :
    (runEvents cfg (initState cfg st0) es).instances.length ≤ cfg.poolSize ∧
    (∀ s tid id, (∀ e ∈ s.instances, e.status = Status.busy) →
      cfg.poolSize ≤ s.instances.length →
      acquire_rules_engine cfg s tid id =
        { s with waitQueue := s.waitQueue ++ [(tid, id)] }) := by
  constructor
  · apply runEvents_length_le
    simpa [initState] using hinit
  · intro s tid id hb hlen
    exact acquire_all_busy cfg s tid id hb hlen

/-- C3 witness: along a concrete event sequence with grants, a blocked
acquirer and both release modes, the two-instance pool never holds more
than two instances. -/
theorem c3_pool_size_invariant_witness :
    (runEvents cfgW (initState cfgW []) esW).instances.length ≤ cfgW.poolSize :=
  (c3_pool_size_invariant cfgW [] esW (by decide)).1

/-- C8: pool exhaustion is not an error: an acquirer arriving when every
instance is Busy at capacity is appended to the tail of the FIFO wait
queue with the instance list unchanged; and a release performed while
acquirers are blocked grants the freed instance to the head of the queue -
the longest waiting acquirer - leaving the rest of the queue in order. -/
theorem c8_fifo_wait_queue (cfg : PoolConfig) :
    (∀ s tid id, (∀ e ∈ s.instances, e.status = Status.busy) →
      cfg.poolSize ≤ s.instances.length →
      acquire_rules_engine cfg s tid id =
        { s with waitQueue := s.waitQueue ++ [(tid, id)] }) ∧
    (∀ s tid id t rid rest i e,
      s.waitQueue = (t, rid) :: rest →
      findIdxP (busyOwnedBy tid) s.instances = some i →
      s.instances[i]? = some e →
      (release_rules_engine cfg s tid id).waitQueue = rest ∧
      ∃ e2, (release_rules_engine cfg s tid id).instances[i]? = some e2 ∧
        e2.status = Status.busy ∧ e2.owner = some t) := by
  constructor
  · intro s tid id hb hlen
    exact acquire_all_busy cfg s tid id hb hlen
  · intro s tid id t rid rest i e hwq hf he
    have hrel : release_rules_engine cfg s tid id =
        { instances := grantAt cfg (releaseStore e s.store id)
            (modifyAt s.instances i (fun _ => releasedInstance cfg e id))
            i t rid,
          waitQueue := rest, store := releaseStore e s.store id } := by
      simp [release_rules_engine, hf, he, hwq, wakeHead]
    have hmods : (modifyAt s.instances i
        (fun _ => releasedInstance cfg e id))[i]? =
        some (releasedInstance cfg e id) :=
      getElem?_modifyAt_self s.instances i _ e he
    refine ⟨by rw [hrel], ?_⟩
    by_cases hb2 : (releasedInstance cfg e id).boundId = rid
    · have h3 := (grantAt_getElem cfg (releaseStore e s.store id) _ i t rid _ hmods).1 hb2
      rw [hrel]
      exact ⟨_, h3, rfl, rfl⟩
    · have h3 := (grantAt_getElem cfg (releaseStore e s.store id) _ i t rid _ hmods).2 hb2
      rw [hrel]
      exact ⟨_, h3, rfl, rfl⟩

/-- C8 witness: with both instances of the two-instance pool Busy, a
fourth thread is enqueued without creating an instance, and a release with
thread 3 blocked empties the wait queue by serving thread 3. -/
theorem c8_fifo_wait_queue_witness :
    acquire_rules_engine cfgW sFullW 4 none =
      { sFullW with waitQueue := sFullW.waitQueue ++ [(4, none)] } ∧
    (release_rules_engine cfgW sFullW 1 none).waitQueue = [] := by
  constructor
  · exact (c8_fifo_wait_queue cfgW).1 sFullW 4 none (by decide) (by decide)
  · exact ((c8_fifo_wait_queue cfgW).2 sFullW 1 none 3 (some "persistent_state_1") [] 0
      ⟨Status.busy, none, some 1, baselineWM rsW⟩ rfl rfl rfl).1

/-- C5: a stateful release saves a snapshot equal to the live working
memory under the identifier, binds the identifier and turns the instance
Idle without resetting it, so the fact values collected from its working
memory are unchanged; only a stateless release resets the engine to
baseline and clears the binding. -/
theorem c5_release_frame (cfg : PoolConfig) (s : PoolState) (tid i : Nat)
    (e : EngineInstance) (x : String)
    (hf : findIdxP (busyOwnedBy tid) s.instances = some i)
    (he : s.instances[i]? = some e)
    (hwq : s.waitQueue = []) :
    (release_rules_engine cfg s tid (some x)).instances[i]? =
      some { e with status := Status.idle, owner := none, boundId := some x } ∧
    storeLookup x (release_rules_engine cfg s tid (some x)).store = some e.wm ∧
    (∀ nm, collect_fact_values
        ({ e with status := Status.idle, owner := none,
                  boundId := some x } : EngineInstance).wm nm =
      collect_fact_values e.wm nm) ∧
    (release_rules_engine cfg s tid none).instances[i]? =
      some { e with status := Status.idle, owner := none, boundId := none,
                    wm := baselineWM cfg.rs } := by
  have hrel : release_rules_engine cfg s tid (some x) =
      { instances := modifyAt s.instances i (fun _ =>
          { e with status := Status.idle, owner := none, boundId := some x }),
        waitQueue := [], store := storeSave x e.wm s.store } := by
    simp [release_rules_engine, hf, he, hwq, wakeHead, releasedInstance, releaseStore]
  have hrel2 : release_rules_engine cfg s tid none =
      { instances := modifyAt s.instances i (fun _ =>
          { e with status := Status.idle, owner := none, boundId := none,
                   wm := baselineWM cfg.rs }),
        waitQueue := [], store := s.store } := by
    simp [release_rules_engine, hf, he, hwq, wakeHead, releasedInstance, releaseStore]
  refine ⟨?_, ?_, fun nm => rfl, ?_⟩
  · rw [hrel]
    exact getElem?_modifyAt_self s.instances i _ e he
  · rw [hrel]
    exact storeLookup_save x e.wm s.store
  · rw [hrel2]
    exact getElem?_modifyAt_self s.instances i _ e he

/-- C5 witness: releasing the single busy engine under an identifier saves
its baseline working memory and leaves it intact on the Idle instance. -/
theorem c5_release_frame_witness :
    storeLookup "persistent_state_1"
      (release_rules_engine cfgW1 sBusyW 1 (some "persistent_state_1")).store =
      some (baselineWM rsW) :=
  (c5_release_frame cfgW1 sBusyW 1 0 ⟨Status.busy, none, some 1, baselineWM rsW⟩
    "persistent_state_1" rfl rfl rfl).2.1

/-- C7: acquiring with an identifier that has no persisted snapshot
succeeds: the store lookup reports absence, the granted engine is in
baseline state, and the state loaded is the same as for a stateless
acquire. -/
theorem c7_acquire_missing_state (cfg : PoolConfig) (s : PoolState)
    (tid i : Nat) (e : EngineInstance) (x : String)
    (hmiss : storeLookup x s.store = none)
    (hfast : findIdxP (idleBoundTo x) s.instances = none)
    (hcap : ¬ s.instances.length < cfg.poolSize)
    (hidle : findIdxP isIdleInst s.instances = some i)
    (he : s.instances[i]? = some e) :
    (acquire_rules_engine cfg s tid (some x)).instances[i]? =
      some ⟨Status.busy, some x, some tid, baselineWM cfg.rs⟩ ∧
    loadOrBaseline cfg s.store (some x) = loadOrBaseline cfg s.store none := by
  have hload : loadOrBaseline cfg s.store (some x) = baselineWM cfg.rs := by
    simp [loadOrBaseline, hmiss]
  have hie : isIdleInst e = true := by
    obtain ⟨a, ha, hpa⟩ := findIdxP_some_elem isIdleInst s.instances i hidle
    rw [he] at ha
    injection ha with ha2
    rw [ha2]
    exact hpa
  have hst : e.status = Status.idle := isIdleInst_status e hie
  have hnb : e.boundId ≠ some x := by
    apply idleBoundTo_false_not_bound x e hst
    exact (findIdxP_none_iff (idleBoundTo x) s.instances).mp hfast e
      (mem_of_getElemOpt s.instances i e he)
  have hacq : acquire_rules_engine cfg s tid (some x) =
      { s with instances := grantAt cfg s.store s.instances i tid (some x) } := by
    simp [acquire_rules_engine, hfast, acquireSlow, hcap, hidle]
  have h2 := (grantAt_getElem cfg s.store s.instances i tid (some x) e he).2 hnb
  constructor
  · rw [hacq]
    rw [show ({ s with instances := grantAt cfg s.store s.instances i tid (some x) }
        : PoolState).instances = grantAt cfg s.store s.instances i tid (some x) from rfl]
    rw [h2, hload]
  · rw [hload]
    rfl

/-- C7 witness: acquiring the identifier of the notebook against an empty
store grants the single idle engine at baseline. -/
theorem c7_acquire_missing_state_witness :
    (acquire_rules_engine cfgW1 sIdleW 1 (some "persistent_state_1")).instances[0]? =
      some ⟨Status.busy, some "persistent_state_1", some 1, baselineWM cfgW1.rs⟩ :=
  (c7_acquire_missing_state cfgW1 sIdleW 1 0 ⟨Status.idle, none, none, baselineWM rsW⟩
    "persistent_state_1" rfl rfl (by decide) rfl rfl).1

/-- C4: after acquiring for identifier X (here: from the state where thread
tid already holds engine i), asserting facts F and releasing under X, a
subsequent acquire for X - by any thread - returns an engine whose working
memory is exactly the one saved, so its collected fact values reproduce
the facts derived from F; the snapshot saved under X equals that working
memory; and an instance previously bound to a different identifier is
granted with the stored snapshot restored, so the round trip does not
depend on reusing the same instance. -/
theorem c4_persistence_round_trip (cfg : PoolConfig) (s : PoolState)
    (tid tid2 i : Nat) (e : EngineInstance) (x : String)
    (F : List (String × HostValue))
    (hf : findIdxP (busyOwnedBy tid) s.instances = some i)
    (he : s.instances[i]? = some e)
    (hwq : s.waitQueue = [])
    (hoth : ∀ j, j < i → ∀ e2, s.instances[j]? = some e2 →
      idleBoundTo x e2 = false) :
    (acquire_rules_engine cfg
        (release_rules_engine cfg (poolSetFacts cfg s tid F) tid (some x))
        tid2 (some x)).instances[i]? =
      some ⟨Status.busy, some x, some tid2, (set_facts cfg.rs e.wm F).1⟩ ∧
    storeLookup x
        (release_rules_engine cfg (poolSetFacts cfg s tid F) tid (some x)).store =
      some (set_facts cfg.rs e.wm F).1 ∧
    (∀ st2 insts j t b e3, insts[j]? = some e3 → e3.boundId ≠ some x →
      storeLookup x st2 = some b →
      (grantAt cfg st2 insts j t (some x))[j]? =
        some { e3 with status := Status.busy, owner := some t,
                       boundId := some x, wm := b }) := by
  have hbusy : busyOwnedBy tid e = true := by
    obtain ⟨a, ha, hpa⟩ := findIdxP_some_elem (busyOwnedBy tid) s.instances i hf
    rw [he] at ha
    injection ha with ha2
    rw [ha2]
    exact hpa
  have hs1 : poolSetFacts cfg s tid F =
      { s with instances := modifyAt s.instances i (fun e2 =>
          { e2 with wm := (set_facts cfg.rs e2.wm F).1 }) } := by
    simp [poolSetFacts, hf]
  have he1 : (poolSetFacts cfg s tid F).instances[i]? =
      some { e with wm := (set_facts cfg.rs e.wm F).1 } := by
    rw [hs1]
    exact getElem?_modifyAt_self s.instances i _ e he
  have hf1 : findIdxP (busyOwnedBy tid) (poolSetFacts cfg s tid F).instances =
      some i := by
    apply findIdxP_some (busyOwnedBy tid) _ i
      ({ e with wm := (set_facts cfg.rs e.wm F).1 }) he1 hbusy
    intro j hj b hb
    rw [hs1] at hb
    rw [show ({ s with instances := modifyAt s.instances i (fun e2 =>
        { e2 with wm := (set_facts cfg.rs e2.wm F).1 }) } : PoolState).instances =
      modifyAt s.instances i (fun e2 =>
        { e2 with wm := (set_facts cfg.rs e2.wm F).1 }) from rfl] at hb
    rw [getElem?_modifyAt_ne s.instances i j _ (Nat.ne_of_lt hj)] at hb
    exact findIdxP_some_lt (busyOwnedBy tid) s.instances i hf j hj b hb
  have hwq1 : (poolSetFacts cfg s tid F).waitQueue = [] := by
    rw [hs1]
    exact hwq
  have hrel : release_rules_engine cfg (poolSetFacts cfg s tid F) tid (some x) =
      { instances := modifyAt (poolSetFacts cfg s tid F).instances i (fun _ =>
          { e with status := Status.idle, owner := none, boundId := some x,
                   wm := (set_facts cfg.rs e.wm F).1 }),
        waitQueue := [],
        store := storeSave x (set_facts cfg.rs e.wm F).1 s.store } := by
    have hst1 : (poolSetFacts cfg s tid F).store = s.store := by
      rw [hs1]
    simp [release_rules_engine, hf1, he1, hwq1, hst1, wakeHead,
      releasedInstance, releaseStore]
  have hri : (release_rules_engine cfg (poolSetFacts cfg s tid F) tid
      (some x)).instances[i]? =
      some { e with status := Status.idle, owner := none, boundId := some x,
                    wm := (set_facts cfg.rs e.wm F).1 } := by
    rw [hrel]
    exact getElem?_modifyAt_self (poolSetFacts cfg s tid F).instances i _ _ he1
  have hf2 : findIdxP (idleBoundTo x)
      (release_rules_engine cfg (poolSetFacts cfg s tid F) tid
        (some x)).instances = some i := by
    apply findIdxP_some (idleBoundTo x) _ i
      ({ e with status := Status.idle, owner := none, boundId := some x,
                wm := (set_facts cfg.rs e.wm F).1 }) hri
    · simp [idleBoundTo]
    · intro j hj b hb
      rw [hrel] at hb
      have hb2 : (modifyAt (poolSetFacts cfg s tid F).instances i (fun _ =>
          { e with status := Status.idle, owner := none, boundId := some x,
                   wm := (set_facts cfg.rs e.wm F).1 }))[j]? = some b := hb
      rw [getElem?_modifyAt_ne _ i j _ (Nat.ne_of_lt hj)] at hb2
      rw [hs1] at hb2
      have hb3 : (modifyAt s.instances i (fun e2 =>
          { e2 with wm := (set_facts cfg.rs e2.wm F).1 }))[j]? = some b := hb2
      rw [getElem?_modifyAt_ne s.instances i j _ (Nat.ne_of_lt hj)] at hb3
      exact hoth j hj b hb3
  refine ⟨?_, ?_, ?_⟩
  · have hgr := (grantAt_getElem cfg
      (release_rules_engine cfg (poolSetFacts cfg s tid F) tid (some x)).store
      (release_rules_engine cfg (poolSetFacts cfg s tid F) tid (some x)).instances
      i tid2 (some x)
      ({ e with status := Status.idle, owner := none, boundId := some x,
                wm := (set_facts cfg.rs e.wm F).1 }) hri).1 rfl
    simp only [acquire_rules_engine, hf2]
    exact hgr
  · rw [hrel]
    exact storeLookup_save x (set_facts cfg.rs e.wm F).1 s.store
  · intro st2 insts j t b e3 hj3 hne hst
    have h4 := (grantAt_getElem cfg st2 insts j t (some x) e3 hj3).2 hne
    rw [h4]
    simp [loadOrBaseline, hst]

/-- C4 witness: on a one-instance pool whose engine is held by thread 1,
asserting a fact, releasing under the notebook identifier and re-acquiring
it as thread 2 yields the saved working memory. -/
theorem c4_persistence_round_trip_witness :
    (acquire_rules_engine cfgW1
        (release_rules_engine cfgW1
          (poolSetFacts cfgW1 sBusyW 1
            [("content_name", HostValue.seq [Scalar.str "star trek"])])
          1 (some "persistent_state_1"))
        2 (some "persistent_state_1")).instances[0]? =
      some ⟨Status.busy, some "persistent_state_1", some 2,
        (set_facts cfgW1.rs (baselineWM rsW)
          [("content_name", HostValue.seq [Scalar.str "star trek"])]).1⟩ :=
  (c4_persistence_round_trip cfgW1 sBusyW 1 2 0
    ⟨Status.busy, none, some 1, baselineWM rsW⟩ "persistent_state_1"
    [("content_name", HostValue.seq [Scalar.str "star trek"])]
    rfl rfl rfl (fun j hj => absurd hj (Nat.not_lt_zero j))).1
